import Mathlib

/-!
Shallow embedding of the category hierarchy and assignment engine of the
Tag-Manager repository (app.py / app_fastapi.py / models.py), together with
proofs of the behavioural claims about it.

The Category Tree Store is the ordered list of records read from the
category definition file; the Assignment Store is the relational state
(product rows with their last_modified stamp, the product/category mapping
rows, and the mirrored categories table).  Timestamps are modelled as
natural numbers; each operation receives the value of CURRENT_TIMESTAMP as
the argument `now`.  The unbounded parent-chain walk of the source is
modelled with an explicit fuel parameter: a result of `none` means the
while loop is still running after `fuel` iterations.
-/

/-- A record of the category definition file: name, level label
(for example "Level 2 Category") and the optional parent name. -/
structure Category where
  category_name : String
  category_level : String
  connected_to : Option String
deriving DecidableEq

/-- Relational state: `products` is the product_categories table as
(product_id, last_modified) rows, `mapping` is product_category_mapping,
`catTable` is the mirrored categories table (its ids). -/
structure DB where
  products : List (String × Nat)
  mapping : List (String × String)
  catTable : List String
deriving DecidableEq

/-- Taxonomy of error outcomes surfaced by the endpoints. -/
inductive ApiError where
  | noCategoriesProvided
  | noProductsProvided
  | categoryNotFound (id : String)
  | notFound (id : String)
  | hasChildren (id : String) (children : List String)
  | invalidLevel
  | missingParent
  | duplicateName
deriving DecidableEq

/-- Lookup of a category record by name
(`next((cat for cat in categories if cat.category_name == id), None)`). -/
def findCat (cats : List Category) (name : String) : Option Category :=
  cats.find? (fun c => decide (c.category_name = name))

/-- Category ids mapped to a product in a mapping list
(`SELECT category_id FROM product_category_mapping WHERE product_id = ?`). -/
def catsOfMapping (m : List (String × String)) (p : String) : List String :=
  (m.filter (fun r => decide (r.1 = p))).map (fun r => r.2)

/-- Category ids currently assigned to a product. -/
def categoriesOf (db : DB) (p : String) : List String :=
  catsOfMapping db.mapping p

/-- `UPDATE product_categories SET last_modified = CURRENT_TIMESTAMP
WHERE product_id = ?`. -/
def touch (db : DB) (p : String) (now : Nat) : DB :=
  { db with products := db.products.map (fun r => if r.1 = p then (r.1, now) else r) }

/-- Python truthiness of an optional string (None and "" are falsy). -/
def truthy (s : Option String) : Bool :=
  match s with
  | none => false
  | some s => decide (¬ s = "")

/-- The iterative parent-chain walk of assign_categories
(`while current_category and current_category.get("connected_to"): ...`),
with fuel counting loop iterations.  `none` means the loop has not
terminated within `fuel` iterations. -/
def walkOne (cats : List Category) : Nat → Option Category → List String → Option (List String)
  | _, none, acc => some acc
  | fuel, some c, acc =>
    match c.connected_to with
    | none => some acc
    | some pname =>
      if pname = "" then some acc
      else
        match fuel with
        | 0 => none
        | fuel + 1 => walkOne cats fuel (findCat cats pname) (acc ++ [pname])

/-- Union of the parent walks of a list of category ids, as accumulated in
the shared parent_categories set.  Unknown ids contribute nothing (the walk
starts at `none` and stops at once): the silent-skip behaviour of the
source. -/
def walkAll (cats : List Category) (ids : List String) (fuel : Nat) : Option (List String) :=
  ids.foldl
    (fun acc i =>
      match acc with
      | none => none
      | some ps =>
        match walkOne cats fuel (findCat cats i) [] with
        | none => none
        | some ps2 => some (ps ++ ps2))
    (some [])

/-- Result of a successful single-product assign: the new state, the
added_categories list, the parent_categories_added statistic and the
updated category list returned to the caller. -/
structure AssignResult where
  db : DB
  added : List String
  parentsAdded : Nat
  categories : List String
deriving DecidableEq

/-- Outcome of assign_categories; `hung` means the parent walk was still
looping after the given fuel. -/
inductive AssignOut where
  | err (e : ApiError)
  | hung
  | ok (r : AssignResult)
deriving DecidableEq

/-- POST /api/products/(product_id)/categories: read current categories,
walk parents of every requested id, touch the product, insert every
missing category of the requested-plus-parents set. -/
def assign_categories (cats : List Category) (db : DB) (p : String)
    (ids : List String) (now fuel : Nat) : AssignOut :=
  if ids.isEmpty then .err .noCategoriesProvided
  else
    match walkAll cats ids fuel with
    | none => .hung
    | some ps =>
      let current := categoriesOf db p
      let toAdd := (ids ++ ps).dedup
      let db1 := touch db p now
      let added := toAdd.filter (fun c => decide (c ∉ current))
      let db2 := { db1 with mapping := db1.mapping ++ added.map (fun c => (p, c)) }
      .ok { db := db2
            added := added
            parentsAdded := (ps.dedup.filter (fun x => decide (x ∉ ids))).length
            categories := categoriesOf db2 p }

/-- The three-level example tree of the specification:
A (level 1), B (level 2 under A), C (level 3 under B). -/
def treeABC : List Category :=
  [⟨"A", "Level 1 Category", none⟩,
   ⟨"B", "Level 2 Category", some "A"⟩,
   ⟨"C", "Level 3 Category", some "B"⟩]

/-- DELETE /api/products/(product_id)/category/(category_id): touch the
product unconditionally, then delete the one mapping row. -/
def remove_category (db : DB) (p c : String) (now : Nat) : DB :=
  let db1 := touch db p now
  { db1 with mapping := db1.mapping.filter (fun r => decide (¬(r.1 = p ∧ r.2 = c))) }

/-- Names of the child categories of a node
(`[cat for cat in categories if cat.get("connected_to") == category_name]`). -/
def childNamesOf (cats : List Category) (name : String) : List String :=
  (cats.filter (fun k => decide (k.connected_to = some name))).map (fun k => k.category_name)

/-- Outcome of the category delete endpoint. -/
inductive DeleteOut where
  | err (e : ApiError)
  | ok (removed : Category) (removedFromProducts : Nat)
deriving DecidableEq

/-- Result of the category delete endpoint: outcome plus the resulting
tree (category file contents) and relational state. -/
structure DeleteResult where
  out : DeleteOut
  cats : List Category
  db : DB
deriving DecidableEq

/-- DELETE /api/categories/delete: refuse if the category is unknown or
has children; otherwise delete its mapping rows, delete it from the
mirrored categories table, run the last_modified UPDATE whose subquery
reads the (already emptied) mapping, and finally rewrite the category
file without the node.  The `affected` list is computed from the mapping
state after the row deletion, exactly as the source does. -/
def delete_category (cats : List Category) (db : DB) (name : String) (now : Nat) : DeleteResult :=
  match findCat cats name with
  | none => ⟨.err (.notFound name), cats, db⟩
  | some c =>
    let children := childNamesOf cats name
    if children.isEmpty then
      let removedCount := db.mapping.countP (fun r => decide (r.2 = name))
      let m1 := db.mapping.filter (fun r => decide (¬(r.2 = name)))
      let ct1 := db.catTable.filter (fun i => decide (¬(i = name)))
      let db1 : DB := { db with mapping := m1, catTable := ct1 }
      let affected := ((db1.mapping.filter (fun r => decide (r.2 = name))).map (fun r => r.1)).dedup
      let db2 := affected.foldl (fun d q => touch d q now) db1
      let cats1 := cats.filter (fun k => decide (¬(k.category_name = name)))
      ⟨.ok c removedCount, cats1, db2⟩
    else ⟨.err (.hasChildren name children), cats, db⟩

/-- The level label written into the category file
(`f"Level (level) Category"`). -/
def levelLabel (level : Int) : String :=
  "Level " ++ toString level ++ " Category"

/-- Outcome of the category create endpoint. -/
inductive CreateOut where
  | err (e : ApiError)
  | ok (c : Category)
deriving DecidableEq

/-- POST /api/categories/create.  `parentField` distinguishes a missing
parent_id key (`none`), an explicit null (`some none`) and a string value
(`some (some s)`), because the source checks `"parent_id" not in data`
for levels above 1 but then uses `data.get("parent_id")`.  The level-1
branch discards any supplied parent.  On success the new record is
appended to the file and mirrored into the categories table
(INSERT OR REPLACE, best effort). -/
def create_category (cats : List Category) (db : DB) (name : String) (level : Int)
    (parentField : Option (Option String)) : CreateOut × List Category × DB :=
  if ¬(level = 1 ∨ level = 2 ∨ level = 3) then (.err .invalidLevel, cats, db)
  else if level > 1 ∧ parentField = none then (.err .missingParent, cats, db)
  else
    match findCat cats name with
    | some _ => (.err .duplicateName, cats, db)
    | none =>
      let newCat : Category := ⟨name, levelLabel level, if level > 1 then parentField.join else none⟩
      let ct1 := if db.catTable.contains name then db.catTable else db.catTable ++ [name]
      (.ok newCat, cats ++ [newCat], { db with catTable := ct1 })

/-- The validate_level_parent_relationship model validator of
CategoryCreateRequest (models.py): false when the request must be
rejected.  It mirrors the two raising conditions, including python
truthiness of level and parent_id. -/
def validate_level_parent_relationship (level : Int) (parent_id : Option String) : Bool :=
  !(decide (¬ level = 0) && decide (level > 1) && !(truthy parent_id)) &&
  !(decide (¬ level = 0) && decide (level = 1) && truthy parent_id)

/-- Statistics block of the bulk assignment endpoints. -/
structure BulkAssignStats where
  total_products : Nat
  total_categories : Nat
  categories_added : Nat
  parent_categories_added : Nat
  products_updated : Nat
deriving DecidableEq

/-- Outcome of a bulk assignment endpoint; errors carry the (unchanged)
state visible after rollback. -/
inductive BulkAssignOut where
  | err (e : ApiError) (db : DB)
  | hung
  | ok (db : DB) (stats : BulkAssignStats)
deriving DecidableEq

/-- The per-product loop shared by the bulk assignment endpoints: for each
product read its current categories, insert every missing member of
`toAdd`, count parent-set members among the insertions, then touch the
product unconditionally. -/
def bulkAssignLoop (toAdd ps : List String) (now : Nat) :
    List String → DB → Nat → Nat → Nat → DB × Nat × Nat × Nat
  | [], db, ca, pca, pu => (db, ca, pca, pu)
  | p :: rest, db, ca, pca, pu =>
    let current := categoriesOf db p
    let added := toAdd.filter (fun c => decide (c ∉ current))
    let db1 := { db with mapping := db.mapping ++ added.map (fun c => (p, c)) }
    let db2 := touch db1 p now
    bulkAssignLoop toAdd ps now rest db2 (ca + added.length)
      (pca + (added.filter (fun c => decide (c ∈ ps))).length) (pu + 1)

/-- POST /api/products/bulk-assign-categories: parents are computed once
from the union of the requested ids, unknown ids are silently skipped by
the walk yet still inserted, and there is no existence check. -/
def bulk_assign_multiple_categories (cats : List Category) (db : DB)
    (pids cids : List String) (now fuel : Nat) : BulkAssignOut :=
  if pids.isEmpty then .err .noProductsProvided db
  else if cids.isEmpty then .err .noCategoriesProvided db
  else
    match walkAll cats cids fuel with
    | none => .hung
    | some ps =>
      let toAdd := (cids ++ ps).dedup
      let r := bulkAssignLoop toAdd ps now pids db 0 0 0
      .ok r.1 ⟨pids.length, cids.length, r.2.1, r.2.2.1, r.2.2.2⟩

/-- POST /api/categories/(category_id)/products: the single-category bulk
assign raises ValueError before any write when the category is absent. -/
def bulk_assign_category (cats : List Category) (db : DB) (cid : String)
    (pids : List String) (now fuel : Nat) : BulkAssignOut :=
  if pids.isEmpty then .err .noProductsProvided db
  else
    match findCat cats cid with
    | none => .err (.categoryNotFound cid) db
    | some c =>
      match walkOne cats fuel (some c) [] with
      | none => .hung
      | some ps =>
        let toAdd := (cid :: ps).dedup
        let r := bulkAssignLoop toAdd ps now pids db 0 0 0
        .ok r.1 ⟨pids.length, 1, r.2.1, r.2.2.1, r.2.2.2⟩

/-- Whether the mapping holds a row for the pair (cursor.rowcount > 0 of
the targeted DELETE). -/
def hasRow (m : List (String × String)) (p c : String) : Bool :=
  decide (∃ r ∈ m, r.1 = p ∧ r.2 = c)

/-- DELETE FROM product_category_mapping WHERE product_id = ? AND
category_id = ?. -/
def delRow (m : List (String × String)) (p c : String) : List (String × String) :=
  m.filter (fun r => decide (¬(r.1 = p ∧ r.2 = c)))

/-- The inner loop of bulk removal for one product: delete each requested
category in turn, counting the deletions that found a row. -/
def removeForProduct (p : String) : List (String × String) → List String → List (String × String) × Nat
  | m, [] => (m, 0)
  | m, c :: cs =>
    if hasRow m p c then
      let r := removeForProduct p (delRow m p c) cs
      (r.1, r.2 + 1)
    else removeForProduct p m cs

/-- Statistics block of the bulk removal endpoint. -/
structure BulkRemoveStats where
  total_products : Nat
  total_categories : Nat
  categories_removed : Nat
  products_updated : Nat
deriving DecidableEq

/-- Outcome of the bulk removal endpoint. -/
inductive BulkRemoveOut where
  | err (e : ApiError) (db : DB)
  | ok (db : DB) (stats : BulkRemoveStats)
deriving DecidableEq

/-- The per-product loop of bulk removal: remove the requested categories
from the product, and touch it (and count it as updated) only when at
least one row was deleted. -/
def bulkRemoveLoop (cids : List String) (now : Nat) :
    List String → DB → Nat → Nat → DB × Nat × Nat
  | [], db, cr, pu => (db, cr, pu)
  | p :: rest, db, cr, pu =>
    let rk := removeForProduct p db.mapping cids
    let db1 : DB := { db with mapping := rk.1 }
    if rk.2 > 0 then bulkRemoveLoop cids now rest (touch db1 p now) (cr + rk.2) (pu + 1)
    else bulkRemoveLoop cids now rest db1 (cr + rk.2) pu

/-- POST /api/products/bulk-remove-categories. -/
def bulk_remove_multiple_categories (db : DB) (pids cids : List String) (now : Nat) : BulkRemoveOut :=
  if pids.isEmpty then .err .noProductsProvided db
  else if cids.isEmpty then .err .noCategoriesProvided db
  else
    let r := bulkRemoveLoop cids now pids db 0 0
    .ok r.1 ⟨pids.length, cids.length, r.2.1, r.2.2⟩

/-! Helper lemmas about the read operations. -/

lemma catsOfMapping_append (a b : List (String × String)) (p : String) :
    catsOfMapping (a ++ b) p = catsOfMapping a p ++ catsOfMapping b p := by
  simp [catsOfMapping, List.filter_append]

lemma catsOfMapping_map_self (p : String) (l : List String) :
    catsOfMapping (l.map (fun c => (p, c))) p = l := by
  induction l with
  | nil => rfl
  | cons c cs ih => simpa [catsOfMapping, List.filter_cons] using ih

lemma catsOfMapping_map_other (p q : String) (l : List String) (hq : q ≠ p) :
    catsOfMapping (l.map (fun c => (p, c))) q = [] := by
  induction l with
  | nil => rfl
  | cons c cs ih => simp only [catsOfMapping, List.map_cons, List.filter_cons] at ih ⊢; simp [Ne.symm hq, ih]

lemma mem_catsOfMapping (m : List (String × String)) (p c : String) :
    c ∈ catsOfMapping m p ↔ (p, c) ∈ m := by
  simp only [catsOfMapping, List.mem_map, List.mem_filter, decide_eq_true_eq]
  constructor
  · rintro ⟨⟨a, b⟩, ⟨hm, h1⟩, h2⟩
    simp only at h1 h2
    rw [← h1, ← h2]
    exact hm
  · intro hm
    exact ⟨(p, c), ⟨hm, rfl⟩, rfl⟩

/-! C2: the parent-chain walk on a cyclic category file. -/

/-- Malformed category data: X and Y name each other as parent. -/
def cycCats : List Category :=
  [⟨"X", "Level 2 Category", some "Y"⟩, ⟨"Y", "Level 3 Category", some "X"⟩]

lemma cyc_walk_none : ∀ (fuel : Nat) (acc : List String),
    walkOne cycCats fuel (findCat cycCats "X") acc = none ∧
    walkOne cycCats fuel (findCat cycCats "Y") acc = none := by
  intro fuel
  induction fuel with
  | zero => intro acc; exact ⟨rfl, rfl⟩
  | succ n ih =>
    intro acc
    exact ⟨(ih (acc ++ ["Y"])).2, (ih (acc ++ ["X"])).1⟩

/-- C2: the ancestor computation is an unbounded while loop, not a
depth-bounded walk: on the cyclic category file cycCats the walk started
at X never terminates, whatever iteration bound is allowed, and the
assign operation consequently never completes. -/
theorem assign_categories_cycle_hangs (fuel : Nat) :
    walkOne cycCats fuel (findCat cycCats "X") [] = none ∧
    assign_categories cycCats ⟨[("P1", 0)], [], []⟩ "P1" ["X"] 0 fuel = .hung := by
  have h := (cyc_walk_none fuel []).1
  refine ⟨h, ?_⟩
  simp [assign_categories, walkAll, h]

/-! C1: deleting a childless assigned category. -/

/-- Category file holding the single childless category A. -/
def catsOneA : List Category := [⟨"A", "Level 1 Category", none⟩]

/-- State with one product P1 (last_modified 0) assigned to A. -/
def dbOneAssigned : DB := ⟨[("P1", 0)], [("P1", "A")], ["A"]⟩

/-- C1: deleting childless, assigned category A does remove its
assignment row (and categoriesOf P1 excludes it afterwards), but no
product gets its last_modified set: the UPDATE runs after the DELETE has
already emptied the mapping rows its subquery reads, so P1 keeps its old
stamp 0 instead of the current timestamp 5. -/
theorem delete_category_never_touches_products :
    delete_category catsOneA dbOneAssigned "A" 5 =
      ⟨.ok ⟨"A", "Level 1 Category", none⟩ 1, [], ⟨[("P1", 0)], [], []⟩⟩ ∧
    categoriesOf (delete_category catsOneA dbOneAssigned "A" 5).db "P1" = [] ∧
    (delete_category catsOneA dbOneAssigned "A" 5).db.products ≠ [("P1", 5)] := by
  decide

/-! C5: deleting a category that has children. -/

/-- C5: when the category exists and has children, delete fails with the
HasChildren error listing the child names, and both the category file and
the relational state are returned unchanged. -/
theorem delete_category_children_blocks (cats : List Category) (db : DB)
    (name : String) (now : Nat) (c : Category)
    (hf : findCat cats name = some c) (hch : childNamesOf cats name ≠ []) :
    delete_category cats db name now =
      ⟨.err (.hasChildren name (childNamesOf cats name)), cats, db⟩ := by
  unfold delete_category
  rw [hf]
  simp [List.isEmpty_iff, hch]

/-- Category file where A has the child B. -/
def catsAB : List Category :=
  [⟨"A", "Level 1 Category", none⟩, ⟨"B", "Level 2 Category", some "A"⟩]

theorem delete_category_children_blocks_witness :
    delete_category catsAB dbOneAssigned "A" 3 =
      ⟨.err (.hasChildren "A" ["B"]), catsAB, dbOneAssigned⟩ :=
  delete_category_children_blocks catsAB dbOneAssigned "A" 3
    ⟨"A", "Level 1 Category", none⟩ (by decide) (by decide)

/-! C8: single-category removal. -/

/-- C8: removeCategory deletes exactly the one pair (p, c): the resulting
mapping is the old one with only rows equal to (p, c) filtered out, so
any other product q keeps its category list and any other category c2 of
p (ancestor or descendant of c included) stays iff it was there; and the
product row of p gets last_modified set to now unconditionally, whether
or not the pair existed. -/
theorem remove_category_frame (db : DB) (p c : String) (now : Nat) (q c2 : String)
    (hq : q ≠ p) (hc2 : c2 ≠ c) :
    (remove_category db p c now).mapping =
      db.mapping.filter (fun r => decide (¬(r.1 = p ∧ r.2 = c))) ∧
    (remove_category db p c now).products =
      db.products.map (fun r => if r.1 = p then (r.1, now) else r) ∧
    categoriesOf (remove_category db p c now) q = categoriesOf db q ∧
    (p, c) ∉ (remove_category db p c now).mapping ∧
    (c2 ∈ categoriesOf (remove_category db p c now) p ↔ c2 ∈ categoriesOf db p) := by
  refine ⟨rfl, rfl, ?_, ?_, ?_⟩
  · show catsOfMapping (db.mapping.filter _) q = catsOfMapping db.mapping q
    unfold catsOfMapping
    rw [List.filter_filter]
    congr 1
    apply List.filter_congr
    intro r hr
    by_cases h1 : r.1 = q <;> simp [h1, hq]
  · intro hmem
    have := (List.mem_filter.mp hmem).2
    simp at this
  · show c2 ∈ catsOfMapping (db.mapping.filter _) p ↔ c2 ∈ catsOfMapping db.mapping p
    rw [mem_catsOfMapping, mem_catsOfMapping, List.mem_filter]
    simp [hc2]

/-- State used to witness C8: P1 is assigned B only, P2 exists too. -/
def dbW8 : DB := ⟨[("P1", 0), ("P2", 0)], [("P1", "B"), ("P2", "B")], []⟩

theorem remove_category_frame_witness :
    (remove_category dbW8 "P1" "C" 4).mapping =
      dbW8.mapping.filter (fun r => decide (¬(r.1 = "P1" ∧ r.2 = "C"))) ∧
    (remove_category dbW8 "P1" "C" 4).products =
      dbW8.products.map (fun r => if r.1 = "P1" then (r.1, 4) else r) ∧
    categoriesOf (remove_category dbW8 "P1" "C" 4) "P2" = categoriesOf dbW8 "P2" ∧
    ("P1", "C") ∉ (remove_category dbW8 "P1" "C" 4).mapping ∧
    ("B" ∈ categoriesOf (remove_category dbW8 "P1" "C" 4) "P1" ↔
      "B" ∈ categoriesOf dbW8 "P1") :=
  remove_category_frame dbW8 "P1" "C" 4 "P2" "B" (by decide) (by decide)

/-! C9: category creation validation. -/

/-- C9 counterexample: the claim says creating a level-1 category with a
non-null parent_id must fail with an InvalidHierarchy error; the code
accepts it, silently drops the parent, and appends the new category. -/
theorem create_category_level1_parent_accepted :
    (create_category catsOneA dbOneAssigned "Z" 1 (some (some "A"))).1 =
      .ok ⟨"Z", "Level 1 Category", none⟩ ∧
    (create_category catsOneA dbOneAssigned "Z" 1 (some (some "A"))).2.1 =
      catsOneA ++ [⟨"Z", "Level 1 Category", none⟩] := by
  constructor <;> decide

/-- C9 (amended): the create endpoint fails with the duplicate-name error
when the name exists, fails when level is outside 1..3, and fails when
level is above 1 and the parent_id key is missing, each failure leaving
the category file and state unchanged; but it accepts level 1 with a
non-null parent (dropping the parent) and accepts level 2/3 with an
explicitly null parent_id (storing a null parent).  The unused request
validator of models.py does reject both of those shapes. -/
theorem create_category_checks (cats : List Category) (db : DB) (name : String)
    (level : Int) (pf : Option (Option String)) (c : Category) :
    (¬(level = 1 ∨ level = 2 ∨ level = 3) →
      create_category cats db name level pf = (.err .invalidLevel, cats, db)) ∧
    ((level = 2 ∨ level = 3) → pf = none →
      create_category cats db name level pf = (.err .missingParent, cats, db)) ∧
    ((level = 1 ∨ ((level = 2 ∨ level = 3) ∧ pf ≠ none)) → findCat cats name = some c →
      create_category cats db name level pf = (.err .duplicateName, cats, db)) ∧
    (level = 1 → findCat cats name = none →
      (create_category cats db name level pf).1 = .ok ⟨name, "Level 1 Category", none⟩ ∧
      (create_category cats db name level pf).2.1 =
        cats ++ [⟨name, "Level 1 Category", none⟩]) ∧
    ((level = 2 ∨ level = 3) → pf = some none → findCat cats name = none →
      (create_category cats db name level pf).1 = .ok ⟨name, levelLabel level, none⟩) ∧
    (validate_level_parent_relationship 1 (some "A") = false ∧
      validate_level_parent_relationship 2 none = false) := by
  refine ⟨?_, ?_, ?_, ?_, ?_, by decide, by decide⟩
  · intro h
    unfold create_category
    rw [if_pos h]
  · rintro (h | h) hpf <;> subst h <;> subst hpf <;> simp [create_category]
  · rintro (h | ⟨h, hpf⟩) hf
    · subst h
      simp [create_category, hf]
    · rcases h with h | h <;> subst h <;> simp [create_category, hf, hpf]
  · intro h hf
    subst h
    refine ⟨?_, ?_⟩ <;> simp [create_category, hf] <;> decide
  · rintro (h | h) hpf hf <;> subst h <;> subst hpf <;> simp [create_category, hf]

theorem create_category_checks_witness :
    create_category catsOneA dbOneAssigned "B2" 2 none =
      (.err .missingParent, catsOneA, dbOneAssigned) :=
  (create_category_checks catsOneA dbOneAssigned "B2" 2 none
    ⟨"A", "Level 1 Category", none⟩).2.1 (Or.inl rfl) rfl

/-! C3: bulk assignment and absent category ids. -/

/-- Whether a bulk-assign outcome is a success. -/
def BulkAssignOut.isOk : BulkAssignOut → Bool
  | .ok _ _ => true
  | _ => false

/-- Whether a successful bulk-assign outcome wrote (or kept) the given
mapping row. -/
def BulkAssignOut.writtenPair : BulkAssignOut → String → String → Bool
  | .ok db _, p, c => decide ((p, c) ∈ db.mapping)
  | _, _, _ => false

/-- C3 counterexample: with the tree holding only A, bulk-assigning the
absent category X to P1 succeeds (no CategoryNotFound) and writes the
mapping row (P1, X). -/
theorem bulk_assign_unknown_category_row_written :
    bulk_assign_multiple_categories catsOneA ⟨[("P1", 0)], [], []⟩ ["P1"] ["X"] 2 3 =
      .ok ⟨[("P1", 2)], [("P1", "X")], []⟩ ⟨1, 1, 1, 0, 1⟩ := by
  decide

lemma bulkAssignLoop_mapping_mono (toAdd ps : List String) (now : Nat) :
    ∀ (pids : List String) (db : DB) (ca pca pu : Nat) (row : String × String),
      row ∈ db.mapping → row ∈ (bulkAssignLoop toAdd ps now pids db ca pca pu).1.mapping := by
  intro pids
  induction pids with
  | nil => intro db ca pca pu row h; exact h
  | cons p rest ih =>
    intro db ca pca pu row h
    exact ih _ _ _ _ row (List.mem_append_left _ h)

lemma bulkAssignLoop_covers (toAdd ps : List String) (now : Nat) :
    ∀ (pids : List String) (db : DB) (ca pca pu : Nat) (p c : String),
      p ∈ pids → c ∈ toAdd →
      (p, c) ∈ (bulkAssignLoop toAdd ps now pids db ca pca pu).1.mapping := by
  intro pids
  induction pids with
  | nil => intro _ _ _ _ _ _ h; cases h
  | cons p0 rest ih =>
    intro db ca pca pu p c hp hc
    rcases List.mem_cons.mp hp with h0 | hrest
    · subst h0
      refine bulkAssignLoop_mapping_mono toAdd ps now rest _ _ _ _ (p, c) ?_
      show (p, c) ∈ db.mapping ++
        (toAdd.filter (fun c => decide (c ∉ categoriesOf db p))).map (fun c => (p, c))
      by_cases hcur : c ∈ categoriesOf db p
      · exact List.mem_append_left _ ((mem_catsOfMapping _ _ _).mp hcur)
      · refine List.mem_append_right _ ?_
        refine List.mem_map.mpr ⟨c, ?_, rfl⟩
        exact List.mem_filter.mpr ⟨hc, by simpa using hcur⟩
    · exact ih _ _ _ _ _ _ hrest hc

/-- C3 (amended): the multi-category bulk assign never fails with
CategoryNotFound: whenever both id lists are non-empty and the parent
walk terminates it succeeds, and it writes an assignment row for every
requested (product, category) pair, including category ids absent from
the Tree Store.  Only the single-category bulk endpoint rejects an absent
category id, before writing anything: it fails with CategoryNotFound and
leaves the state unchanged. -/
theorem bulk_assign_missing_category_handling
    (cats : List Category) (db : DB) (pids cids : List String) (now fuel : Nat)
    (ps : List String) (p c : String)
    (cats2 : List Category) (db2 : DB) (cid2 : String) (pids2 : List String)
    (now2 fuel2 : Nat)
    (hp0 : pids ≠ []) (hc0 : cids ≠ []) (hw : walkAll cats cids fuel = some ps)
    (hp : p ∈ pids) (hc : c ∈ cids)
    (hp2 : pids2 ≠ []) (hf2 : findCat cats2 cid2 = none) :
    (bulk_assign_multiple_categories cats db pids cids now fuel).isOk = true ∧
    (bulk_assign_multiple_categories cats db pids cids now fuel).writtenPair p c = true ∧
    bulk_assign_category cats2 db2 cid2 pids2 now2 fuel2 =
      .err (.categoryNotFound cid2) db2 := by
  have hpe : pids.isEmpty = false := by simpa [List.isEmpty_iff] using hp0
  have hce : cids.isEmpty = false := by simpa [List.isEmpty_iff] using hc0
  have hpe2 : pids2.isEmpty = false := by simpa [List.isEmpty_iff] using hp2
  refine ⟨?_, ?_, ?_⟩
  · simp [bulk_assign_multiple_categories, hpe, hce, hw, BulkAssignOut.isOk]
  · have hmem : (p, c) ∈ (bulkAssignLoop (cids ++ ps).dedup ps now pids db 0 0 0).1.mapping :=
      bulkAssignLoop_covers _ _ _ _ _ _ _ _ p c hp
        (List.mem_dedup.mpr (List.mem_append_left _ hc))
    simp [bulk_assign_multiple_categories, hpe, hce, hw, BulkAssignOut.writtenPair, hmem]
  · simp [bulk_assign_category, hpe2, hf2]

theorem bulk_assign_missing_category_handling_witness :
    (bulk_assign_multiple_categories catsOneA ⟨[("P1", 0)], [], []⟩
      ["P1"] ["X"] 2 3).isOk = true ∧
    (bulk_assign_multiple_categories catsOneA ⟨[("P1", 0)], [], []⟩
      ["P1"] ["X"] 2 3).writtenPair "P1" "X" = true ∧
    bulk_assign_category catsOneA dbOneAssigned "Q" ["P2"] 1 0 =
      .err (.categoryNotFound "Q") dbOneAssigned :=
  bulk_assign_missing_category_handling catsOneA ⟨[("P1", 0)], [], []⟩
    ["P1"] ["X"] 2 3 [] "P1" "X" catsOneA dbOneAssigned "Q" ["P2"] 1 0
    (by decide) (by decide) (by decide) (by decide) (by decide)
    (by decide) (by decide)

/-! Field characterisation of a successful single-product assign. -/

lemma assign_categories_ok_fields
    (cats : List Category) (db : DB) (p : String) (ids : List String)
    (now fuel : Nat) (ps : List String) (r : AssignResult)
    (hw : walkAll cats ids fuel = some ps)
    (hok : assign_categories cats db p ids now fuel = .ok r) :
    r.added = (ids ++ ps).dedup.filter (fun c => decide (c ∉ categoriesOf db p)) ∧
    r.db.mapping = db.mapping ++ r.added.map (fun c => (p, c)) ∧
    r.db.products = db.products.map (fun x => if x.1 = p then (x.1, now) else x) ∧
    r.db.catTable = db.catTable ∧
    r.categories = categoriesOf db p ++ r.added ∧
    r.categories = categoriesOf r.db p ∧
    r.parentsAdded = (ps.dedup.filter (fun x => decide (x ∉ ids))).length := by
  by_cases hids : ids.isEmpty
  · rw [assign_categories, if_pos hids] at hok; cases hok
  · rw [assign_categories, if_neg hids, hw] at hok
    cases hok
    refine ⟨rfl, rfl, rfl, rfl, ?_, rfl, rfl⟩
    show catsOfMapping (db.mapping ++
        ((ids ++ ps).dedup.filter (fun c => decide (c ∉ categoriesOf db p))).map
          (fun c => (p, c))) p = _
    rw [catsOfMapping_append, catsOfMapping_map_self]
    rfl

/-! C4: assign inserts the requested set plus its ancestor closure. -/

/-- Initial state for the concrete example: P1 with no assignments. -/
def dbP1 : DB := ⟨[("P1", 0)], [], []⟩

/-- The result of the specification example assign(P1, C) on treeABC. -/
def resABC : AssignResult :=
  ⟨⟨[("P1", 7)], [("P1", "C"), ("P1", "B"), ("P1", "A")], []⟩,
    ["C", "B", "A"], 2, ["C", "B", "A"]⟩

/-- C4: after a successful assign, the product's category set contains
every requested id and every id produced by the parent walk; and on the
3-level example tree, assign(P1, [C]) yields exactly the set A, B, C with
2 ancestor-only additions. -/
theorem assign_categories_closure_superset
    (cats : List Category) (db : DB) (p : String) (ids : List String)
    (now fuel : Nat) (ps : List String) (r : AssignResult) (s a : String)
    (hw : walkAll cats ids fuel = some ps)
    (hok : assign_categories cats db p ids now fuel = .ok r)
    (hs : s ∈ ids) (ha : a ∈ ps) :
    s ∈ categoriesOf r.db p ∧ a ∈ categoriesOf r.db p ∧
    assign_categories treeABC dbP1 "P1" ["C"] 7 3 = .ok resABC ∧
    List.Perm resABC.categories ["A", "B", "C"] := by
  obtain ⟨hadd, _, _, _, hcats, hcats2, _⟩ :=
    assign_categories_ok_fields cats db p ids now fuel ps r hw hok
  have hfin : categoriesOf r.db p = categoriesOf db p ++ r.added := by rw [← hcats2, hcats]
  have hmem : ∀ x, x ∈ (ids ++ ps).dedup → x ∈ categoriesOf r.db p := by
    intro x hx
    rw [hfin]
    by_cases hc : x ∈ categoriesOf db p
    · exact List.mem_append_left _ hc
    · refine List.mem_append_right _ ?_
      rw [hadd]
      exact List.mem_filter.mpr ⟨hx, by simpa using hc⟩
  refine ⟨hmem s ?_, hmem a ?_, by decide, by decide⟩
  · exact List.mem_dedup.mpr (List.mem_append_left _ hs)
  · exact List.mem_dedup.mpr (List.mem_append_right _ ha)

theorem assign_categories_closure_superset_witness :
    "C" ∈ categoriesOf resABC.db "P1" ∧ "A" ∈ categoriesOf resABC.db "P1" ∧
    assign_categories treeABC dbP1 "P1" ["C"] 7 3 = .ok resABC ∧
    List.Perm resABC.categories ["A", "B", "C"] :=
  assign_categories_closure_superset treeABC dbP1 "P1" ["C"] 7 3 ["B", "A"]
    resABC "C" "A" (by decide) (by decide) (by decide) (by decide)

/-! C6: assign is idempotent. -/

/-- C6: repeating the same assign leaves the state where the first call
put it: the second call adds nothing, reports an empty added list, and
returns the same category list. -/
theorem assign_categories_idempotent
    (cats : List Category) (db : DB) (p : String) (ids : List String)
    (now now2 fuel : Nat) (ps : List String) (r1 r2 : AssignResult)
    (hw : walkAll cats ids fuel = some ps)
    (h1 : assign_categories cats db p ids now fuel = .ok r1)
    (h2 : assign_categories cats r1.db p ids now2 fuel = .ok r2) :
    r2.added = [] ∧ r2.categories = r1.categories ∧
    categoriesOf r2.db p = categoriesOf r1.db p := by
  obtain ⟨a1, _, _, _, c1, c1b, _⟩ :=
    assign_categories_ok_fields cats db p ids now fuel ps r1 hw h1
  obtain ⟨a2, m2, _, _, c2, _, _⟩ :=
    assign_categories_ok_fields cats r1.db p ids now2 fuel ps r2 hw h2
  have hfin1 : categoriesOf r1.db p = categoriesOf db p ++ r1.added := by rw [← c1b, c1]
  have hadded2 : r2.added = [] := by
    rw [a2]
    refine List.filter_eq_nil_iff.mpr ?_
    intro x hx
    simp only [decide_eq_true_eq, not_not]
    rw [hfin1]
    by_cases hc : x ∈ categoriesOf db p
    · exact List.mem_append_left _ hc
    · refine List.mem_append_right _ ?_
      rw [a1]
      exact List.mem_filter.mpr ⟨hx, by simpa using hc⟩
  have hmap2 : categoriesOf r2.db p = categoriesOf r1.db p := by
    show catsOfMapping r2.db.mapping p = _
    rw [m2, hadded2, List.map_nil, List.append_nil]
    rfl
  refine ⟨hadded2, ?_, hmap2⟩
  rw [c2, hadded2, List.append_nil, ← c1b]

/-- The state and result of repeating the example assign: the second call
touches P1 with the new timestamp but adds nothing. -/
def resABC2 : AssignResult :=
  ⟨⟨[("P1", 11)], [("P1", "C"), ("P1", "B"), ("P1", "A")], []⟩,
    [], 2, ["C", "B", "A"]⟩

theorem assign_categories_idempotent_witness :
    resABC2.added = [] ∧ resABC2.categories = resABC.categories ∧
    categoriesOf resABC2.db "P1" = categoriesOf resABC.db "P1" :=
  assign_categories_idempotent treeABC dbP1 "P1" ["C"] 7 11 3 ["B", "A"]
    resABC resABC2 (by decide) (by decide) (by decide)

/-! C10: assign only inserts rows. -/

/-- C10: a successful assign never deletes a mapping row: every prior row
survives, every other product's category list is untouched, and the
target product's prior categories are still assigned. -/
theorem assign_categories_monotone
    (cats : List Category) (db : DB) (p : String) (ids : List String)
    (now fuel : Nat) (ps : List String) (r : AssignResult)
    (row : String × String) (q : String) (c : String)
    (hw : walkAll cats ids fuel = some ps)
    (hok : assign_categories cats db p ids now fuel = .ok r)
    (hrow : row ∈ db.mapping) (hq : q ≠ p) (hcp : c ∈ categoriesOf db p) :
    row ∈ r.db.mapping ∧ categoriesOf r.db q = categoriesOf db q ∧
    c ∈ categoriesOf r.db p := by
  obtain ⟨_, m1, _, _, c1, c1b, _⟩ :=
    assign_categories_ok_fields cats db p ids now fuel ps r hw hok
  refine ⟨?_, ?_, ?_⟩
  · rw [m1]
    exact List.mem_append_left _ hrow
  · show catsOfMapping r.db.mapping q = _
    rw [m1, catsOfMapping_append, catsOfMapping_map_other p q _ hq, List.append_nil]
    rfl
  · have hfin : categoriesOf r.db p = categoriesOf db p ++ r.added := by rw [← c1b, c1]
    rw [hfin]
    exact List.mem_append_left _ hcp

/-- Result of assigning C to P1 when P1 already has B and P2 has B. -/
def resW10 : AssignResult :=
  ⟨⟨[("P1", 7), ("P2", 0)], [("P1", "B"), ("P2", "B"), ("P1", "C"), ("P1", "A")], []⟩,
    ["C", "A"], 2, ["B", "C", "A"]⟩

theorem assign_categories_monotone_witness :
    ("P2", "B") ∈ resW10.db.mapping ∧
    categoriesOf resW10.db "P2" = categoriesOf dbW8 "P2" ∧
    "B" ∈ categoriesOf resW10.db "P1" :=
  assign_categories_monotone treeABC dbW8 "P1" ["C"] 7 3 ["B", "A"] resW10
    ("P2", "B") "P2" "B" (by decide) (by decide) (by decide) (by decide) (by decide)

/-! Counting lemmas for the bulk removal proof. -/

lemma countP_or_split {α : Type} (l : List α) (f g : α → Bool) :
    l.countP (fun x => f x || g x) = l.countP f + l.countP (fun x => g x && !(f x)) := by
  induction l with
  | nil => rfl
  | cons x xs ih =>
    cases hf : f x <;> cases hg : g x <;>
      simp [List.countP_cons, hf, hg, ih] <;> omega

lemma countP_not_add {α : Type} (l : List α) (f : α → Bool) :
    l.countP f + l.countP (fun x => !(f x)) = l.length := by
  induction l with
  | nil => rfl
  | cons x xs ih => cases hf : f x <;> simp [List.countP_cons, hf] <;> omega

lemma hasRow_iff (m : List (String × String)) (p c : String) :
    hasRow m p c = true ↔ (p, c) ∈ m := by
  simp only [hasRow, decide_eq_true_eq]
  constructor
  · rintro ⟨⟨a, b⟩, hr, h1, h2⟩
    simp only at h1 h2
    subst h1
    subst h2
    exact hr
  · intro h
    exact ⟨(p, c), h, rfl, rfl⟩

lemma delRow_of_not_hasRow (m : List (String × String)) (p c : String)
    (h : hasRow m p c = false) : delRow m p c = m := by
  refine List.filter_eq_self.mpr ?_
  intro r hr
  simp only [hasRow, decide_eq_false_iff_not] at h
  simp only [decide_eq_true_eq]
  intro hc
  exact h ⟨r, hr, hc⟩

lemma removeForProduct_fst (p : String) (cids : List String) :
    ∀ m, (removeForProduct p m cids).1 =
      m.filter (fun r => decide (¬(r.1 = p ∧ r.2 ∈ cids))) := by
  induction cids with
  | nil =>
    intro m
    simp [removeForProduct]
  | cons c cs ih =>
    intro m
    have hstep : (removeForProduct p m (c :: cs)).1 =
        (removeForProduct p (delRow m p c) cs).1 := by
      by_cases h : hasRow m p c
      · simp [removeForProduct, h]
      · simp [removeForProduct, h,
          delRow_of_not_hasRow m p c (Bool.not_eq_true _ ▸ by simpa using h)]
    rw [hstep, ih (delRow m p c), delRow, List.filter_filter]
    refine List.filter_congr ?_
    intro r hr
    by_cases h1 : r.1 = p <;> by_cases h2 : r.2 = c <;> by_cases h3 : r.2 ∈ cs <;>
      simp [h1, h2, h3, List.mem_cons]

lemma countP_pair_one (m : List (String × String)) (p c : String)
    (hm : m.Nodup) (hmem : (p, c) ∈ m) :
    m.countP (fun r => decide (r.1 = p ∧ r.2 = c)) = 1 := by
  induction m with
  | nil => cases hmem
  | cons x xs ih =>
    obtain ⟨hx, hxs⟩ := List.nodup_cons.mp hm
    rw [List.countP_cons]
    rcases List.mem_cons.mp hmem with h0 | hmemxs
    · subst h0
      have hz : xs.countP (fun r => decide (r.1 = p ∧ r.2 = c)) = 0 := by
        refine List.countP_eq_zero.mpr ?_
        rintro ⟨a, b⟩ hr hab
        simp only [decide_eq_true_eq] at hab
        obtain ⟨h1, h2⟩ := hab
        subst h1
        subst h2
        exact hx hr
      rw [hz]
      simp
    · have hxne : ¬(x.1 = p ∧ x.2 = c) := by
        rintro ⟨h1, h2⟩
        obtain ⟨a, b⟩ := x
        simp only at h1 h2
        subst h1
        subst h2
        exact hx hmemxs
      rw [ih hxs hmemxs]
      simp [hxne]

lemma countP_mem_cons_split (m : List (String × String)) (p c : String) (cs : List String) :
    m.countP (fun r => decide (r.1 = p ∧ r.2 ∈ c :: cs)) =
      m.countP (fun r => decide (r.1 = p ∧ r.2 = c)) +
      m.countP (fun r => decide (r.1 = p ∧ r.2 ∈ cs) && !(decide (r.1 = p ∧ r.2 = c))) := by
  induction m with
  | nil => rfl
  | cons x xs ih =>
    simp only [List.countP_cons, ih]
    by_cases ha : x.1 = p <;> by_cases hb : x.2 = c <;> by_cases hc : x.2 ∈ cs <;>
      simp [ha, hb, hc, List.mem_cons] <;> omega

lemma removeForProduct_snd (p : String) (cids : List String) :
    ∀ m, m.Nodup → (removeForProduct p m cids).2 =
      m.countP (fun r => decide (r.1 = p ∧ r.2 ∈ cids)) := by
  induction cids with
  | nil =>
    intro m _
    simp [removeForProduct]
  | cons c cs ih =>
    intro m hm
    by_cases h : hasRow m p c
    · have hmem : (p, c) ∈ m := (hasRow_iff m p c).mp h
      have hnd : (delRow m p c).Nodup := List.Nodup.filter _ hm
      have hL : (removeForProduct p m (c :: cs)).2 =
          (removeForProduct p (delRow m p c) cs).2 + 1 := by
        simp [removeForProduct, h]
      have h1 : (removeForProduct p (delRow m p c) cs).2 =
          m.countP (fun r =>
            decide (r.1 = p ∧ r.2 ∈ cs) && !(decide (r.1 = p ∧ r.2 = c))) := by
        rw [ih (delRow m p c) hnd, delRow, List.countP_filter]
        refine List.countP_congr ?_
        intro r hr
        simp [decide_not]
      rw [hL, h1, countP_mem_cons_split m p c cs, countP_pair_one m p c hm hmem]
      omega
    · have hnm : (p, c) ∉ m := fun hmem => h ((hasRow_iff m p c).mpr hmem)
      have hL : (removeForProduct p m (c :: cs)).2 = (removeForProduct p m cs).2 := by
        simp [removeForProduct, h]
      rw [hL, ih m hm]
      refine List.countP_congr ?_
      rintro ⟨a, b⟩ hr
      have hne : ¬(a = p ∧ b = c) := by
        rintro ⟨ha, hb⟩
        subst ha
        subst hb
        exact hnm hr
      by_cases ha : a = p
      · by_cases hc : b ∈ cs
        · simp [ha, hc, List.mem_cons]
        · have hb : ¬ b = c := fun hb => hne ⟨ha, hb⟩
          simp [ha, hc, hb, List.mem_cons]
      · simp [ha]

lemma countP_fst_cons_split (m : List (String × String)) (p : String)
    (rest cids : List String) :
    m.countP (fun row => decide (row.1 ∈ p :: rest ∧ row.2 ∈ cids)) =
      m.countP (fun row => decide (row.1 = p ∧ row.2 ∈ cids)) +
      m.countP (fun row => decide (row.1 ∈ rest ∧ row.2 ∈ cids) &&
        !(decide (row.1 = p ∧ row.2 ∈ cids))) := by
  induction m with
  | nil => rfl
  | cons x xs ih =>
    simp only [List.countP_cons, ih]
    by_cases ha : x.1 = p <;> by_cases hb : x.1 ∈ rest <;> by_cases hc : x.2 ∈ cids <;>
      simp [ha, hb, hc, List.mem_cons] <;> omega

lemma had_filter_congr (m : List (String × String)) (cids : List String)
    (p q : String) (hq : q ≠ p) :
    (∃ row ∈ m.filter (fun row => decide (¬(row.1 = p ∧ row.2 ∈ cids))),
        row.1 = q ∧ row.2 ∈ cids) ↔
      (∃ row ∈ m, row.1 = q ∧ row.2 ∈ cids) := by
  constructor
  · rintro ⟨row, hrow, h1, h2⟩
    exact ⟨row, (List.mem_filter.mp hrow).1, h1, h2⟩
  · rintro ⟨row, hrow, h1, h2⟩
    refine ⟨row, List.mem_filter.mpr ⟨hrow, ?_⟩, h1, h2⟩
    simp only [decide_eq_true_eq]
    rintro ⟨hp1, _⟩
    apply hq
    rw [← h1, hp1]

lemma bulkRemoveLoop_spec (cids : List String) (now : Nat) :
    ∀ (pids : List String) (db : DB) (cr pu : Nat),
      db.mapping.Nodup → pids.Nodup →
      bulkRemoveLoop cids now pids db cr pu =
        (⟨db.products.map (fun r =>
              if r.1 ∈ pids ∧ (∃ row ∈ db.mapping, row.1 = r.1 ∧ row.2 ∈ cids)
              then (r.1, now) else r),
          db.mapping.filter (fun row => decide (¬(row.1 ∈ pids ∧ row.2 ∈ cids))),
          db.catTable⟩,
         cr + db.mapping.countP (fun row => decide (row.1 ∈ pids ∧ row.2 ∈ cids)),
         pu + pids.countP (fun q => decide (∃ row ∈ db.mapping, row.1 = q ∧ row.2 ∈ cids))) := by
  intro pids
  induction pids with
  | nil =>
    intro db cr pu hm hp
    simp [bulkRemoveLoop]
  | cons p rest ih =>
    intro db cr pu hm hp
    obtain ⟨hpr, hrest⟩ := List.nodup_cons.mp hp
    have hfst := removeForProduct_fst p cids db.mapping
    have hsnd := removeForProduct_snd p cids db.mapping hm
    have hndnext : (db.mapping.filter
        (fun row => decide (¬(row.1 = p ∧ row.2 ∈ cids)))).Nodup :=
      List.Nodup.filter _ hm
    by_cases hpos : 0 < (removeForProduct p db.mapping cids).2
    · have hadp : ∃ row ∈ db.mapping, row.1 = p ∧ row.2 ∈ cids := by
        rw [hsnd] at hpos
        obtain ⟨row, hrm, hrp⟩ := List.countP_pos_iff.mp hpos
        simp only [decide_eq_true_eq] at hrp
        exact ⟨row, hrm, hrp⟩
      have hstep : bulkRemoveLoop cids now (p :: rest) db cr pu =
          bulkRemoveLoop cids now rest
            (touch { db with mapping := (removeForProduct p db.mapping cids).1 } p now)
            (cr + (removeForProduct p db.mapping cids).2) (pu + 1) := by
        simp only [bulkRemoveLoop]
        rw [if_pos hpos]
      rw [hstep, hfst, ih _ _ _ hndnext hrest]
      simp only [touch, Prod.mk.injEq, DB.mk.injEq]
      refine ⟨⟨?_, ?_, trivial⟩, ?_, ?_⟩
      · rw [List.map_map]
        refine List.map_congr_left ?_
        intro r hr
        simp only [Function.comp_apply]
        by_cases h1 : r.1 = p
        · rw [if_pos h1]
          have hcl : ¬((r.1, now).1 ∈ rest ∧
              (∃ row ∈ db.mapping.filter
                (fun r => decide (¬(r.1 = p ∧ r.2 ∈ cids))),
                row.1 = (r.1, now).1 ∧ row.2 ∈ cids)) := by
            rintro ⟨hmem2, _⟩
            rw [h1] at hmem2
            exact hpr hmem2
          have hco : r.1 ∈ p :: rest ∧
              (∃ row ∈ db.mapping, row.1 = r.1 ∧ row.2 ∈ cids) := by
            constructor
            · rw [h1]
              exact List.mem_cons_self p rest
            · rw [h1]
              exact hadp
          rw [if_neg hcl, if_pos hco]
        · rw [if_neg h1]
          refine if_congr ?_ rfl rfl
          exact and_congr (by simp [List.mem_cons, h1])
            (had_filter_congr db.mapping cids p r.1 h1)
      · rw [List.filter_filter]
        refine List.filter_congr ?_
        intro row hrow
        by_cases h1 : row.1 = p <;> by_cases h2 : row.1 ∈ rest <;>
          by_cases h3 : row.2 ∈ cids <;> simp [h1, h2, h3, List.mem_cons]
      · rw [hsnd, List.countP_filter, countP_fst_cons_split db.mapping p rest cids]
        have hcg : db.mapping.countP (fun a =>
              decide (a.1 ∈ rest ∧ a.2 ∈ cids) && decide (¬(a.1 = p ∧ a.2 ∈ cids))) =
            db.mapping.countP (fun a =>
              decide (a.1 ∈ rest ∧ a.2 ∈ cids) && !(decide (a.1 = p ∧ a.2 ∈ cids))) := by
          refine List.countP_congr ?_
          intro a ha
          rw [decide_not]
        rw [hcg]
        omega
      · have hcg : rest.countP (fun q =>
              decide (∃ row ∈ db.mapping.filter
                (fun (s : String × String) => decide (¬(s.1 = p ∧ s.2 ∈ cids))),
                row.1 = q ∧ row.2 ∈ cids)) =
            rest.countP (fun q =>
              decide (∃ row ∈ db.mapping, row.1 = q ∧ row.2 ∈ cids)) := by
          refine List.countP_congr ?_
          intro q hqr
          have hq : q ≠ p := fun h => hpr (h ▸ hqr)
          simp only [decide_eq_true_eq]
          exact had_filter_congr db.mapping cids p q hq
        rw [List.countP_cons, hcg]
        simp [hadp]
        omega
    · have hz : (removeForProduct p db.mapping cids).2 = 0 :=
        Nat.eq_zero_of_not_pos hpos
      have hnone : ¬∃ row ∈ db.mapping, row.1 = p ∧ row.2 ∈ cids := by
        rw [hsnd] at hz
        rintro ⟨row, hrm, h1, h2⟩
        have hlt : 0 < db.mapping.countP
            (fun r => decide (r.1 = p ∧ r.2 ∈ cids)) :=
          List.countP_pos_iff.mpr ⟨row, hrm, by simp [h1, h2]⟩
        omega
      have hstep : bulkRemoveLoop cids now (p :: rest) db cr pu =
          bulkRemoveLoop cids now rest
            { db with mapping := (removeForProduct p db.mapping cids).1 }
            (cr + (removeForProduct p db.mapping cids).2) pu := by
        simp only [bulkRemoveLoop]
        rw [if_neg hpos]
      rw [hstep, hfst, hz, ih _ _ _ hndnext hrest]
      simp only [Prod.mk.injEq, DB.mk.injEq]
      refine ⟨⟨?_, ?_, trivial⟩, ?_, ?_⟩
      · refine List.map_congr_left ?_
        intro r hr
        by_cases h1 : r.1 = p
        · have hcl : ¬(r.1 ∈ rest ∧
              (∃ row ∈ db.mapping.filter
                (fun r => decide (¬(r.1 = p ∧ r.2 ∈ cids))),
                row.1 = r.1 ∧ row.2 ∈ cids)) := by
            rintro ⟨hmem2, _⟩
            rw [h1] at hmem2
            exact hpr hmem2
          have hcr2 : ¬(r.1 ∈ p :: rest ∧
              (∃ row ∈ db.mapping, row.1 = r.1 ∧ row.2 ∈ cids)) := by
            rintro ⟨_, hex⟩
            rw [h1] at hex
            exact hnone hex
          rw [if_neg hcl, if_neg hcr2]
        · refine if_congr ?_ rfl rfl
          exact and_congr (by simp [List.mem_cons, h1])
            (had_filter_congr db.mapping cids p r.1 h1)
      · rw [List.filter_filter]
        refine List.filter_congr ?_
        intro row hrow
        by_cases h1 : row.1 = p <;> by_cases h2 : row.1 ∈ rest <;>
          by_cases h3 : row.2 ∈ cids <;> simp [h1, h2, h3, List.mem_cons]
      · rw [hsnd] at hz
        rw [List.countP_filter, countP_fst_cons_split db.mapping p rest cids]
        have hcg : db.mapping.countP (fun a =>
              decide (a.1 ∈ rest ∧ a.2 ∈ cids) && decide (¬(a.1 = p ∧ a.2 ∈ cids))) =
            db.mapping.countP (fun a =>
              decide (a.1 ∈ rest ∧ a.2 ∈ cids) && !(decide (a.1 = p ∧ a.2 ∈ cids))) := by
          refine List.countP_congr ?_
          intro a ha
          rw [decide_not]
        rw [hcg, hz]
        omega
      · have hcg : rest.countP (fun q =>
              decide (∃ row ∈ db.mapping.filter
                (fun (s : String × String) => decide (¬(s.1 = p ∧ s.2 ∈ cids))),
                row.1 = q ∧ row.2 ∈ cids)) =
            rest.countP (fun q =>
              decide (∃ row ∈ db.mapping, row.1 = q ∧ row.2 ∈ cids)) := by
          refine List.countP_congr ?_
          intro q hqr
          have hq : q ≠ p := fun h => hpr (h ▸ hqr)
          simp only [decide_eq_true_eq]
          exact had_filter_congr db.mapping cids p q hq
        rw [List.countP_cons, hcg]
        simp [hnone]

/-- C7: bulk removal deletes, per product, exactly the requested category
pairs that are present and nothing else (no ancestor or descendant
cascading): the resulting mapping is the old one minus the rows of
requested (product, category) pairs.  A product's last_modified is set to
now exactly when it is in the batch and had at least one matching row;
categoriesRemoved equals the total number of rows deleted and
productsUpdated the number of batch products with at least one removal. -/
theorem bulk_remove_spec
    (db : DB) (pids cids : List String) (now : Nat)
    (hm : db.mapping.Nodup) (hp : pids.Nodup) (hp0 : pids ≠ []) (hc0 : cids ≠ []) :
    bulk_remove_multiple_categories db pids cids now =
      .ok ⟨db.products.map (fun r =>
            if r.1 ∈ pids ∧ (∃ row ∈ db.mapping, row.1 = r.1 ∧ row.2 ∈ cids)
            then (r.1, now) else r),
          db.mapping.filter (fun row => decide (¬(row.1 ∈ pids ∧ row.2 ∈ cids))),
          db.catTable⟩
        ⟨pids.length, cids.length,
          db.mapping.countP (fun row => decide (row.1 ∈ pids ∧ row.2 ∈ cids)),
          pids.countP (fun q => decide (∃ row ∈ db.mapping, row.1 = q ∧ row.2 ∈ cids))⟩ ∧
    db.mapping.countP (fun row => decide (row.1 ∈ pids ∧ row.2 ∈ cids)) =
      db.mapping.length -
        (db.mapping.filter (fun row => decide (¬(row.1 ∈ pids ∧ row.2 ∈ cids)))).length ∧
    pids.countP (fun q => decide (∃ row ∈ db.mapping, row.1 = q ∧ row.2 ∈ cids)) =
      (pids.filter (fun q => decide (∃ row ∈ db.mapping, row.1 = q ∧ row.2 ∈ cids))).length := by
  have hpe : pids.isEmpty = false := by simpa [List.isEmpty_iff] using hp0
  have hce : cids.isEmpty = false := by simpa [List.isEmpty_iff] using hc0
  refine ⟨?_, ?_, ?_⟩
  · simp only [bulk_remove_multiple_categories, hpe, hce, Bool.false_eq_true, if_false]
    rw [bulkRemoveLoop_spec cids now pids db 0 0 hm hp]
    simp
  · have hadd := countP_not_add db.mapping
      (fun row => decide (row.1 ∈ pids ∧ row.2 ∈ cids))
    have hlf : (db.mapping.filter
          (fun row => decide (¬(row.1 ∈ pids ∧ row.2 ∈ cids)))).length =
        db.mapping.countP (fun row => decide (¬(row.1 ∈ pids ∧ row.2 ∈ cids))) :=
      (List.countP_eq_length_filter _ _).symm
    have hcg : db.mapping.countP (fun row => decide (¬(row.1 ∈ pids ∧ row.2 ∈ cids))) =
        db.mapping.countP (fun row => !(decide (row.1 ∈ pids ∧ row.2 ∈ cids))) := by
      refine List.countP_congr ?_
      intro row hrow
      simp
    rw [hlf, hcg]
    omega
  · exact List.countP_eq_length_filter _ _

/-- State used to witness C7: P1 holds A and B, P2 holds B. -/
def dbW7 : DB := ⟨[("P1", 0), ("P2", 0)], [("P1", "A"), ("P1", "B"), ("P2", "B")], []⟩

theorem bulk_remove_spec_witness :
    (bulk_remove_multiple_categories dbW7 ["P1", "P2"] ["A"] 9 =
      .ok ⟨dbW7.products.map (fun r =>
            if r.1 ∈ ["P1", "P2"] ∧ (∃ row ∈ dbW7.mapping, row.1 = r.1 ∧ row.2 ∈ ["A"])
            then (r.1, 9) else r),
          dbW7.mapping.filter (fun row =>
            decide (¬(row.1 ∈ ["P1", "P2"] ∧ row.2 ∈ ["A"]))),
          dbW7.catTable⟩
        ⟨(["P1", "P2"] : List String).length, (["A"] : List String).length,
          dbW7.mapping.countP (fun row =>
            decide (row.1 ∈ ["P1", "P2"] ∧ row.2 ∈ ["A"])),
          (["P1", "P2"] : List String).countP (fun q =>
            decide (∃ row ∈ dbW7.mapping, row.1 = q ∧ row.2 ∈ ["A"]))⟩) ∧
    dbW7.mapping.countP (fun row => decide (row.1 ∈ ["P1", "P2"] ∧ row.2 ∈ ["A"])) =
      dbW7.mapping.length -
        (dbW7.mapping.filter (fun row =>
          decide (¬(row.1 ∈ ["P1", "P2"] ∧ row.2 ∈ ["A"])))).length ∧
    (["P1", "P2"] : List String).countP (fun q =>
        decide (∃ row ∈ dbW7.mapping, row.1 = q ∧ row.2 ∈ ["A"])) =
      ((["P1", "P2"] : List String).filter (fun q =>
        decide (∃ row ∈ dbW7.mapping, row.1 = q ∧ row.2 ∈ ["A"]))).length :=
  bulk_remove_spec dbW7 ["P1", "P2"] ["A"] 9
    (by decide) (by decide) (by decide) (by decide)
